import Mathlib

/-!
Formal model of the remote-settings ai-window-prompts updater (`script.py`).

The script is a one-shot batch job: it clones a prompts repository, turns the
on-disk prompt files into records, diffs them against the records currently in
the remote collection, applies the diff as one batch, and drives the review
workflow.  The definitions below embed the pieces of `script.py` that the
verified properties are about; external collaborators that are not part of the
repository (the `kinto_http` diff helper and the remote store itself) are
modelled from the specification, as noted on each such definition.
-/

namespace PromptsUpdater

/-- A collection record.  `script.py` treats records as flat dicts; the model
keeps the two fields the synchronisation logic inspects by name (`id`,
`last_modified`) and represents every other key/value pair in `fields`. -/
structure Record where
  id : String
  fields : List (String × String)
  last_modified : Option Nat
deriving DecidableEq

/-- Removal of the `last_modified` key from a record payload, as done by
`record.pop("last_modified", None)` at `script.py` line 150. -/
def stripLM (r : Record) : Record :=
  { r with last_modified := none }

/-- Modelled from the spec: `collection_diff` is imported from
`kinto_http.utils` (`script.py` line 11) and its code is not part of this
repository.  Following spec section 3 ("Diff result") and section 4.2 step 2:
ids present only in the desired set go to `to_create`; ids present in both
sets with content differing on any field other than `last_modified` go to
`to_update` as an (actual, desired) pair; ids present only in the actual set
go to `to_delete`; identical records are excluded from all three. -/
def collection_diff (src dest : List Record) :
    List Record × List (Record × Record) × List Record :=
  let to_create := src.filter (fun r => !(dest.any (fun d => d.id == r.id)))
  let to_update := src.filterMap (fun r =>
    match dest.find? (fun d => d.id == r.id) with
    | some d => if d.fields == r.fields then none else some (d, r)
    | none => none)
  let to_delete := dest.filter (fun d => !(src.any (fun r => r.id == d.id)))
  (to_create, to_update, to_delete)

/-- Truthiness of `to_create or to_update or to_delete` (`script.py`
line 137): at least one of the three diff lists is non-empty. -/
def hasChanges (d : List Record × List (Record × Record) × List Record) : Bool :=
  !d.1.isEmpty || !d.2.1.isEmpty || !d.2.2.isEmpty

/-- Observable calls made by one `sync_collection` run: how many batch
submissions, which payloads were queued in the batch, and how many
`request_review` / `approve_changes` calls were issued. -/
structure Calls where
  batch : Nat
  creates : List Record
  updates : List Record
  deletes : List String
  review : Nat
  approve : Nat
deriving DecidableEq

/-- The empty call log: nothing was sent to the store. -/
def noCalls : Calls :=
  { batch := 0, creates := [], updates := [], deletes := [], review := 0, approve := 0 }

/-- One run's remote-store behaviour, seen from `sync_collection`: the outcome
of `client.get_records()` and whether the batch commit, the review request and
the approval call succeed (a `false` flag stands for the call raising
`KintoException`). -/
structure Client where
  get_records : Except Unit (List Record)
  batch_ok : Bool
  review_ok : Bool
  approve_ok : Bool

/-- Embedding of `sync_collection` (`script.py` lines 126-174).  Returns the
result code together with the call log.  Mirrors the source: fetch failure
returns 1 before any diff; an empty diff returns 0 with no store contact; the
batch queues creates as-is, updates with `last_modified` popped, deletes by id;
a batch failure returns 1 before any review call; on `dev` the review request
is followed by an approval call, elsewhere only the review request is made;
a `KintoException` in the review block returns 1 (the approval call is never
reached when the review request itself fails). -/
def sync_collection (env : String) (client : Client) (source_records : List Record) :
    Nat × Calls :=
  match client.get_records with
  | .error _ => (1, noCalls)
  | .ok dest_records =>
    let d := collection_diff source_records dest_records
    if !hasChanges d then (0, noCalls)
    else
      let ops : Calls :=
        { batch := 1
          creates := d.1
          updates := d.2.1.map (fun p => stripLM p.2)
          deletes := d.2.2.map (fun r => r.id)
          review := 0
          approve := 0 }
      if !client.batch_ok then (1, ops)
      else if env == "dev" then
        if !client.review_ok then (1, { ops with review := 1 })
        else if !client.approve_ok then (1, { ops with review := 1, approve := 1 })
        else (0, { ops with review := 1, approve := 1 })
      else
        if !client.review_ok then (1, { ops with review := 1 })
        else (0, { ops with review := 1 })

/-- Modelled from the spec: the remote store's effect of a fully applied batch
(spec section 6, store capability `createRecord` / `updateRecord` /
`deleteRecord`): deleted ids are removed, updated ids are replaced by the
desired content (the store manages `last_modified` itself), created records
are added. -/
def apply_batch (dest to_create : List Record) (to_update : List (Record × Record))
    (to_delete : List Record) : List Record :=
  let kept := dest.filter (fun d => !(to_delete.any (fun r => r.id == d.id)))
  let updated := kept.map (fun d =>
    match to_update.find? (fun p => p.1.id == d.id) with
    | some p => stripLM p.2
    | none => d)
  updated ++ to_create

/-- Ids of a record list. -/
def idsOf (l : List Record) : List String :=
  l.map (fun r => r.id)

/-- Character substitution of `str.replace(".", "-")` applied to one
character. -/
def substDot (c : Char) : Char :=
  if c = '.' then '-' else c

/-- Embedding of `data["model"].replace(".", "-")` (`script.py` line 109):
every `.` in the model name becomes `-`. -/
def replaceDots (s : String) : String :=
  ⟨s.data.map substDot⟩

/-- Embedding of the record-identifier derivation at `script.py` line 109:
the f-string `feature "--" model-with-dots-replaced "--" version`, where
`version` is the stem of the major-version directory. -/
def record_id (feature model version : String) : String :=
  feature ++ "--" ++ replaceDots model ++ "--" ++ version

/-- Boolean test that `a` starts the list `b`. -/
def leadsWith : List Char → List Char → Bool
  | [], _ => true
  | _ :: _, [] => false
  | a :: as, b :: bs => a == b && leadsWith as bs

/-- Embedding of the Python string containment operator `needle in hay`
(used at `script.py` line 27): `needle` occurs as a contiguous substring of
`hay` (the empty string is contained in everything). -/
def str_in (needle hay : String) : Bool :=
  (List.range (hay.data.length + 1)).any (fun i => leadsWith needle.data (hay.data.drop i))

/-- Embedding of `IS_DRY_RUN` (`script.py` line 27): the value of the
`DRY_RUN` environment variable (default `"0"`) tested for membership in the
string `"1yY"` with Python's `in`, i.e. substring containment. -/
def is_dry_run (dry_run_env : String) : Bool :=
  str_in dry_run_env "1yY"

/-- Outcomes of exceptions escaping `fetch_current_prompts`:
`missingDirectory` is the `FileNotFoundError` raised at `script.py` line 87;
`unboundLocal` is the `UnboundLocalError` raised inside the `finally` block
when `collect_prompts_and_params` failed and `records` was never bound. -/
inductive FetchErr where
  | missingDirectory
  | unboundLocal
deriving DecidableEq

/-- Embedding of `fetch_current_prompts` (`script.py` lines 83-96) over the
relevant state: whether `repo_path / "prompts"` exists, whether
`repo_path.parent` (the temporary directory) exists, and the outcome of
`collect_prompts_and_params`.  Returns the function's outcome together with a
flag recording whether `shutil.rmtree` deleted the temporary tree.  The
`FileNotFoundError` at line 87 is raised before the `try`/`finally`, so no
cleanup happens on that path; inside `finally`, `rmtree` runs first (when the
parent exists) and then the `return records` statement evaluates `records`,
which raises `UnboundLocalError` when the `try` body failed. -/
def fetch_current_prompts (dirExists parentExists : Bool)
    (collect : Except Unit (List Record)) :
    Except FetchErr (List Record) × Bool :=
  if !dirExists then (.error .missingDirectory, false)
  else
    match collect with
    | .ok records => (.ok records, parentExists)
    | .error _ => (.error .unboundLocal, parentExists)

/-- Embedding of `main` (`script.py` lines 177-214) over the outcomes of its
stages: `serverInfoOk` is whether `server_info()` succeeds (line 193),
`cloneOk` is whether `clone_repo` returns a path rather than `""` (line 206),
and the remaining arguments drive `fetch_current_prompts` and
`sync_collection`.  `main` wraps the server check in `try`/`except` and tests
the clone result, but calls `fetch_current_prompts` with no handler (line
208), so an exception raised there propagates out of `main` — modelled as an
`Except.error` result, while a returned exit code is `Except.ok`. -/
def main (serverInfoOk cloneOk dirExists parentExists : Bool)
    (collect : Except Unit (List Record)) (env : String) (client : Client) :
    Except FetchErr Nat :=
  if !serverInfoOk then .ok 1
  else if !cloneOk then .ok 1
  else
    match fetch_current_prompts dirExists parentExists collect with
    | (.error e, _) => .error e
    | (.ok prompts, _) => .ok (sync_collection env client prompts).1

/-- Classification property of one id with respect to a diff: the id belongs
to at least one of the create ids, the update (new-record) ids, the delete
ids, or the unchanged ids (present in both sets with equal content), and to no
two of them. -/
def diffClass (A B : List Record) (i : String) : Prop :=
  (i ∈ idsOf (collection_diff A B).1 ∨
     i ∈ (collection_diff A B).2.1.map (fun p => p.2.id) ∨
     i ∈ idsOf (collection_diff A B).2.2 ∨
     (∃ a ∈ A, ∃ b ∈ B, a.id = i ∧ b.id = i ∧ a.fields = b.fields)) ∧
  (i ∈ idsOf (collection_diff A B).1 →
     ¬(i ∈ (collection_diff A B).2.1.map (fun p => p.2.id)) ∧
     ¬(i ∈ idsOf (collection_diff A B).2.2) ∧
     ¬(∃ a ∈ A, ∃ b ∈ B, a.id = i ∧ b.id = i ∧ a.fields = b.fields)) ∧
  (i ∈ (collection_diff A B).2.1.map (fun p => p.2.id) →
     ¬(i ∈ idsOf (collection_diff A B).2.2) ∧
     ¬(∃ a ∈ A, ∃ b ∈ B, a.id = i ∧ b.id = i ∧ a.fields = b.fields)) ∧
  (i ∈ idsOf (collection_diff A B).2.2 →
     ¬(∃ a ∈ A, ∃ b ∈ B, a.id = i ∧ b.id = i ∧ a.fields = b.fields))

/-! Theorems.  Helper lemmas come first; each claim's theorem carries the
claim id in its doc comment. -/

/-- The first projection of the diff is the filtered create list. -/
theorem diff_fst (A B : List Record) :
    (collection_diff A B).1 = A.filter (fun r => !(B.any (fun d => d.id == r.id))) := rfl

/-- The second projection of the diff is the filterMap of update pairs. -/
theorem diff_upd (A B : List Record) :
    (collection_diff A B).2.1 = A.filterMap (fun r =>
      match B.find? (fun d => d.id == r.id) with
      | some d => if d.fields == r.fields then none else some (d, r)
      | none => none) := rfl

/-- The third projection of the diff is the filtered delete list. -/
theorem diff_del (A B : List Record) :
    (collection_diff A B).2.2 = B.filter (fun d => !(A.any (fun r => r.id == d.id))) := rfl

/-- A run whose diff is empty returns 0 with no store calls. -/
theorem sync_of_empty (env : String) (client : Client) (src dest : List Record)
    (hget : client.get_records = Except.ok dest)
    (hdiff : collection_diff src dest = ([], [], [])) :
    sync_collection env client src = (0, noCalls) := by
  obtain ⟨gr, bok, rok, aok⟩ := client
  dsimp only at hget
  subst hget
  dsimp only [sync_collection]
  rw [hdiff]
  simp [hasChanges]

/-- C1 counterexample: with the server check and the clone succeeding but the
prompts directory absent, `main` does not return an exit code at all — the
`FileNotFoundError` raised by `fetch_current_prompts` propagates out of the
process entry point uncaught, rather than being converted to a logged message
plus a non-zero result code. -/
theorem main_missing_dir_counterexample :
    main true true false true (Except.ok []) "prod" ⟨Except.ok [], true, true, true⟩ =
      Except.error FetchErr.missingDirectory := rfl

/-- C1 (amended): in every run in which the expected prompts root directory is
absent after acquisition, the loader raises the MissingDirectory condition as
an exception (`FileNotFoundError`), and `main` — which calls the loader with
no handler — lets that exception escape the process entry point instead of
converting it to a non-zero result code. -/
theorem main_missing_dir_escapes (parentExists : Bool)
    (collect : Except Unit (List Record)) (env : String) (client : Client) :
    main true true false parentExists collect env client =
      Except.error FetchErr.missingDirectory := rfl

/-- C3 counterexample: on the failure path where the expected prompts
directory is missing, the temporary filesystem tree is not deleted — the
`FileNotFoundError` is raised before the `try`/`finally` block that performs
the `rmtree` cleanup. -/
theorem fetch_missing_dir_no_cleanup :
    (fetch_current_prompts false true (Except.ok [])).2 = false := rfl

/-- C3 (amended): the temporary tree is deleted before the loading stage
returns or fails on the success path and on the collect-failure path (the
`finally` block runs `rmtree` first in both), but on the path where the
expected prompts directory is missing the tree is not deleted. -/
theorem fetch_cleanup_paths (collect : Except Unit (List Record)) :
    (fetch_current_prompts true true collect).2 = true ∧
    (fetch_current_prompts false true collect).2 = false := by
  cases collect <;> exact ⟨rfl, rfl⟩

/-- Correctness of `leadsWith`: it decides whether its first argument is an
initial segment of its second. -/
theorem leadsWith_iff : ∀ (a b : List Char), leadsWith a b = true ↔ ∃ t, a ++ t = b
  | [], b => by simp [leadsWith]
  | _ :: _, [] => by simp [leadsWith]
  | a :: as, b :: bs => by
    simp only [leadsWith, Bool.and_eq_true, beq_iff_eq, leadsWith_iff as bs,
      List.cons_append, List.cons.injEq]
    constructor
    · rintro ⟨rfl, t, rfl⟩
      exact ⟨t, rfl, rfl⟩
    · rintro ⟨t, rfl, h⟩
      exact ⟨rfl, t, h⟩

/-- Correctness of `str_in`: it decides contiguous-substring containment. -/
theorem str_in_iff (needle hay : String) :
    str_in needle hay = true ↔
      ∃ pre post : List Char, pre ++ needle.data ++ post = hay.data := by
  unfold str_in
  rw [List.any_eq_true]
  constructor
  · rintro ⟨i, _, hlw⟩
    obtain ⟨t, ht⟩ := (leadsWith_iff _ _).mp hlw
    refine ⟨hay.data.take i, t, ?_⟩
    rw [List.append_assoc, ht, List.take_append_drop]
  · rintro ⟨pre, post, h⟩
    refine ⟨pre.length, ?_, ?_⟩
    · rw [List.mem_range]
      have hlen := congrArg List.length h
      simp only [List.length_append] at hlen
      omega
    · rw [leadsWith_iff]
      refine ⟨post, ?_⟩
      have hh : hay.data = pre ++ (needle.data ++ post) := by
        rw [← h, List.append_assoc]
      rw [hh, List.drop_left]

/-- C10: the dry-run flag is enabled exactly when the `DRY_RUN` string is a
contiguous substring of `"1yY"`; in particular the empty string enables
dry-run mode, while the default `"0"` and multi-character values such as
`"yes"` do not. -/
theorem dry_run_iff_substring :
    (∀ s : String, is_dry_run s = true ↔
      ∃ pre post : List Char, pre ++ s.data ++ post = ("1yY" : String).data) ∧
    is_dry_run "" = true ∧ is_dry_run "0" = false ∧ is_dry_run "yes" = false :=
  ⟨fun s => str_in_iff s "1yY", by decide, by decide, by decide⟩

/-- C6: if the diff of the desired records against the fetched actual records
is empty in all three components, `sync_collection` returns 0 and makes no
batch call, no review request and no approval call. -/
theorem sync_empty_diff_returns_zero (env : String) (client : Client)
    (src dest : List Record)
    (hget : client.get_records = Except.ok dest)
    (hdiff : collection_diff src dest = ([], [], [])) :
    sync_collection env client src = (0, noCalls) :=
  sync_of_empty env client src dest hget hdiff

/-- C6 witness: a concrete already-in-sync run. -/
theorem sync_empty_diff_returns_zero_witness :
    sync_collection "prod" ⟨Except.ok [⟨"a", [("k", "v")], some 3⟩], true, true, true⟩
      [⟨"a", [("k", "v")], none⟩] = (0, noCalls) :=
  sync_empty_diff_returns_zero "prod" ⟨Except.ok [⟨"a", [("k", "v")], some 3⟩], true, true, true⟩
    [⟨"a", [("k", "v")], none⟩] [⟨"a", [("k", "v")], some 3⟩] rfl (by decide)

/-- In every run, the update payloads queued in the batch are either absent or
exactly the diff's update pairs with `last_modified` popped. -/
theorem sync_updates_shape (env : String) (client : Client) (src : List Record) :
    (sync_collection env client src).2.updates = [] ∨
    ∃ dest, client.get_records = Except.ok dest ∧
      (sync_collection env client src).2.updates =
        (collection_diff src dest).2.1.map (fun p => stripLM p.2) := by
  obtain ⟨gr, bok, rok, aok⟩ := client
  cases gr with
  | error e => exact Or.inl rfl
  | ok dest =>
    dsimp only [sync_collection]
    by_cases hch : hasChanges (collection_diff src dest) = true
    · rw [hch]
      refine Or.inr ⟨dest, rfl, ?_⟩
      cases bok <;> cases rok <;> cases aok <;>
        by_cases hdev : (env == "dev") = true <;>
          simp [hdev]
    · rw [Bool.not_eq_true] at hch
      rw [hch]
      exact Or.inl rfl

/-- C7: every record payload passed to the store's update operation in the
batch has no `last_modified` field, whatever the desired or actual record
carried. -/
theorem sync_update_payload_sanitized (env : String) (client : Client)
    (src : List Record) (r : Record)
    (hr : r ∈ (sync_collection env client src).2.updates) :
    r.last_modified = none := by
  rcases sync_updates_shape env client src with hsh | ⟨dest, _, hsh⟩
  · rw [hsh] at hr
    exact absurd hr (List.not_mem_nil r)
  · rw [hsh] at hr
    obtain ⟨p, _, hp⟩ := List.mem_map.mp hr
    rw [← hp]
    rfl

/-- C7 witness: a concrete run with one update whose desired and actual
records both carry revision stamps. -/
theorem sync_update_payload_sanitized_witness :
    (Record.mk "a" [("k", "new")] none).last_modified = none :=
  sync_update_payload_sanitized "prod"
    ⟨Except.ok [⟨"a", [("k", "old")], some 5⟩], true, true, true⟩
    [⟨"a", [("k", "new")], some 7⟩] ⟨"a", [("k", "new")], none⟩ (by decide)

/-- C4 counterexample: a dev run with a non-empty diff whose batch apply
succeeds but whose review request raises makes one review request and no
approval call, contradicting the claim that such a run always makes exactly
one approval call. -/
theorem sync_dev_review_failure_no_approval :
    (sync_collection "dev" ⟨Except.ok [], true, false, true⟩ [⟨"a", [], none⟩]).2.review = 1 ∧
    (sync_collection "dev" ⟨Except.ok [], true, false, true⟩ [⟨"a", [], none⟩]).2.approve = 0 := by
  decide

/-- C4 (amended): for every run of sync with a non-empty diff whose batch
apply succeeds: when the environment is `"dev"`, exactly one review request is
made and, provided that review request succeeds, exactly one approval call;
for every other environment value, exactly one review request and no approval
call are made. -/
theorem sync_env_gating (env : String) (client : Client) (src dest : List Record)
    (hget : client.get_records = Except.ok dest)
    (hch : hasChanges (collection_diff src dest) = true)
    (hbatch : client.batch_ok = true) :
    (env = "dev" →
      (sync_collection env client src).2.review = 1 ∧
      (client.review_ok = true → (sync_collection env client src).2.approve = 1)) ∧
    (env ≠ "dev" →
      (sync_collection env client src).2.review = 1 ∧
      (sync_collection env client src).2.approve = 0) := by
  obtain ⟨gr, bok, rok, aok⟩ := client
  dsimp only at hget hbatch
  subst hget hbatch
  dsimp only [sync_collection]
  rw [hch]
  constructor
  · rintro rfl
    constructor
    · cases rok <;> cases aok <;> simp
    · intro hrok
      subst hrok
      cases aok <;> simp
  · intro hne
    rw [beq_eq_false_iff_ne.mpr hne]
    cases rok <;> simp

/-- C4 witness: a concrete non-dev run with a successful non-empty batch. -/
theorem sync_env_gating_witness :
    (sync_collection "stage" ⟨Except.ok [], true, true, true⟩ [⟨"a", [], none⟩]).2.review = 1 ∧
    (sync_collection "stage" ⟨Except.ok [], true, true, true⟩ [⟨"a", [], none⟩]).2.approve = 0 :=
  (sync_env_gating "stage" ⟨Except.ok [], true, true, true⟩ [⟨"a", [], none⟩] []
    rfl (by decide) rfl).2 (by decide)

/-- C5: failure short-circuiting of sync: a fetch failure returns 1 with no
batch, review or approval call; a batch failure (on a non-empty diff) returns
1 with no review or approval call; a review-transition failure after a
successful batch returns 1 while the batch submission stands — the call log
still records one batch carrying exactly the diff's creates, sanitized
updates and deletes, with no compensating operation. -/
theorem sync_short_circuit (env : String) (client : Client) (src : List Record) :
    (client.get_records = Except.error () →
      sync_collection env client src = (1, noCalls)) ∧
    (∀ dest, client.get_records = Except.ok dest →
      hasChanges (collection_diff src dest) = true →
      client.batch_ok = false →
      (sync_collection env client src).1 = 1 ∧
      (sync_collection env client src).2.review = 0 ∧
      (sync_collection env client src).2.approve = 0) ∧
    (∀ dest, client.get_records = Except.ok dest →
      hasChanges (collection_diff src dest) = true →
      client.batch_ok = true →
      (client.review_ok = false ∨ (env = "dev" ∧ client.approve_ok = false)) →
      (sync_collection env client src).1 = 1 ∧
      (sync_collection env client src).2.batch = 1 ∧
      (sync_collection env client src).2.creates = (collection_diff src dest).1 ∧
      (sync_collection env client src).2.updates =
        (collection_diff src dest).2.1.map (fun p => stripLM p.2) ∧
      (sync_collection env client src).2.deletes =
        (collection_diff src dest).2.2.map (fun r => r.id)) := by
  obtain ⟨gr, bok, rok, aok⟩ := client
  refine ⟨?_, ?_, ?_⟩
  · intro h
    dsimp only at h
    subst h
    rfl
  · intro dest hget hch hb
    dsimp only at hget hb
    subst hget hb
    dsimp only [sync_collection]
    rw [hch]
    simp
  · intro dest hget hch hb hfail
    dsimp only at hget hb
    subst hget hb
    dsimp only [sync_collection]
    rw [hch]
    rcases hfail with hrf | ⟨hdev, haf⟩
    · dsimp only at hrf
      subst hrf
      by_cases hdev : env = "dev"
      · subst hdev
        simp
      · rw [beq_eq_false_iff_ne.mpr hdev]
        simp
    · dsimp only at haf
      subst hdev haf
      cases rok <;> simp

/-- C5 witness: a concrete run whose fetch of the actual records fails. -/
theorem sync_short_circuit_witness :
    sync_collection "prod" ⟨Except.error (), true, true, true⟩ [] = (1, noCalls) :=
  (sync_short_circuit "prod" ⟨Except.error (), true, true, true⟩ []).1 rfl

/-- Character data of a derived record identifier. -/
theorem record_id_data (f m v : String) :
    (record_id f m v).data =
      f.data ++ '-' :: '-' :: (m.data.map substDot ++ '-' :: '-' :: v.data) := by
  have hdd : ("--" : String).data = ['-', '-'] := rfl
  have hrm : (replaceDots m).data = m.data.map substDot := rfl
  simp [record_id, String.data_append, hdd, hrm, List.append_assoc]

/-- Taking characters up to the first dash recovers a dash-free component. -/
theorem takeWhile_sep (l r : List Char) (h : ∀ c ∈ l, c ≠ '-') :
    (l ++ '-' :: r).takeWhile (fun c => !(c == '-')) = l := by
  induction l with
  | nil => simp [List.takeWhile_cons]
  | cons a as ih =>
    have ha : (a == '-') = false := beq_eq_false_iff_ne.mpr (h a (List.mem_cons_self a as))
    have has : ∀ c ∈ as, c ≠ '-' := fun c hc => h c (List.mem_cons_of_mem a hc)
    simp [List.takeWhile_cons, ha, ih has]

/-- Splitting at a dash boundary is unambiguous when the components left of
the boundary are dash-free. -/
theorem sep_split (a b r s : List Char)
    (ha : ∀ c ∈ a, c ≠ '-') (hb : ∀ c ∈ b, c ≠ '-')
    (h : a ++ '-' :: r = b ++ '-' :: s) : a = b ∧ r = s := by
  have hab : a = b := by
    have t1 := takeWhile_sep a r ha
    have t2 := takeWhile_sep b s hb
    rw [← t1, ← t2, h]
  subst hab
  have h2 := List.append_cancel_left h
  exact ⟨rfl, by injection h2⟩

/-- The dot-to-dash substitution is injective on characters other than the
dash. -/
theorem substDot_inj (a b : Char) (ha : a ≠ '-') (hb : b ≠ '-')
    (h : substDot a = substDot b) : a = b := by
  by_cases ha' : a = '.'
  · by_cases hb' : b = '.'
    · rw [ha', hb']
    · rw [ha'] at h
      simp only [substDot, if_pos rfl, if_neg hb'] at h
      exact absurd h.symm hb
  · by_cases hb' : b = '.'
    · rw [hb'] at h
      simp only [substDot, if_pos rfl, if_neg ha'] at h
      exact absurd h ha
    · simp only [substDot, if_neg ha', if_neg hb'] at h
      exact h

/-- The dot-to-dash substitution is injective on dash-free character lists. -/
theorem map_substDot_inj : ∀ (m₁ m₂ : List Char),
    (∀ c ∈ m₁, c ≠ '-') → (∀ c ∈ m₂, c ≠ '-') →
    m₁.map substDot = m₂.map substDot → m₁ = m₂
  | [], [], _, _, _ => rfl
  | [], _ :: _, _, _, h => by simp at h
  | _ :: _, [], _, _, h => by simp at h
  | a :: t₁, b :: t₂, h1, h2, h => by
    simp only [List.map_cons, List.cons.injEq] at h
    have hab := substDot_inj a b (h1 a (List.mem_cons_self a t₁))
      (h2 b (List.mem_cons_self b t₂)) h.1
    have ht := map_substDot_inj t₁ t₂ (fun c hc => h1 c (List.mem_cons_of_mem a hc))
      (fun c hc => h2 c (List.mem_cons_of_mem b hc)) h.2
    rw [hab, ht]

/-- C2 counterexample: the triples `("a", "b.c", "v1")` and
`("a", "b-c", "v1")` differ in the model component but derive the same
identifier, so identifier derivation is not injective as claimed. -/
theorem record_id_not_injective :
    record_id "a" "b.c" "v1" = record_id "a" "b-c" "v1" ∧ ("b.c" : String) ≠ "b-c" :=
  ⟨by decide, by decide⟩

/-- C2 (amended): identifier derivation is deterministic, and it is injective
on triples none of whose components contains the dash character: for such
triples the derived ids are equal exactly when the triples are equal.
(Unrestricted injectivity fails: the dot-to-dash substitution lets models such
as `"b.c"` and `"b-c"` collide.) -/
theorem record_id_deterministic_injective (f₁ m₁ v₁ f₂ m₂ v₂ : String)
    (hf₁ : '-' ∉ f₁.data) (hm₁ : '-' ∉ m₁.data) (hv₁ : '-' ∉ v₁.data)
    (hf₂ : '-' ∉ f₂.data) (hm₂ : '-' ∉ m₂.data) (hv₂ : '-' ∉ v₂.data) :
    record_id f₁ m₁ v₁ = record_id f₂ m₂ v₂ ↔ (f₁ = f₂ ∧ m₁ = m₂ ∧ v₁ = v₂) := by
  constructor
  · intro h
    have hd := congrArg String.data h
    rw [record_id_data, record_id_data] at hd
    have hf1 : ∀ c ∈ f₁.data, c ≠ '-' := fun c hc he => hf₁ (he ▸ hc)
    have hf2 : ∀ c ∈ f₂.data, c ≠ '-' := fun c hc he => hf₂ (he ▸ hc)
    obtain ⟨hff, hrest⟩ := sep_split f₁.data f₂.data _ _ hf1 hf2 hd
    injection hrest with _ h2
    have hrev : v₁.data.reverse ++ '-' :: '-' :: (m₁.data.map substDot).reverse =
        v₂.data.reverse ++ '-' :: '-' :: (m₂.data.map substDot).reverse := by
      have h3 := congrArg List.reverse h2
      simpa [List.reverse_append, List.append_assoc] using h3
    have hv1 : ∀ c ∈ v₁.data.reverse, c ≠ '-' :=
      fun c hc he => hv₁ (he ▸ List.mem_reverse.mp hc)
    have hv2 : ∀ c ∈ v₂.data.reverse, c ≠ '-' :=
      fun c hc he => hv₂ (he ▸ List.mem_reverse.mp hc)
    obtain ⟨hvv, hrest2⟩ := sep_split _ _ _ _ hv1 hv2 hrev
    injection hrest2 with _ hm'
    have hm1 : ∀ c ∈ m₁.data, c ≠ '-' := fun c hc he => hm₁ (he ▸ hc)
    have hm2 : ∀ c ∈ m₂.data, c ≠ '-' := fun c hc he => hm₂ (he ▸ hc)
    have hmm : m₁.data = m₂.data :=
      map_substDot_inj m₁.data m₂.data hm1 hm2 (List.reverse_inj.mp hm')
    exact ⟨String.ext hff, String.ext hmm, String.ext (List.reverse_inj.mp hvv)⟩
  · rintro ⟨rfl, rfl, rfl⟩
    rfl

/-- C2 witness: the repository's own sample triple (its model name contains
dots but no dash) instantiates the amended statement. -/
theorem record_id_deterministic_injective_witness :
    ("chat" : String) = "chat" ∧ ("claude.3.5" : String) = "claude.3.5" ∧
      ("v1" : String) = "v1" :=
  (record_id_deterministic_injective "chat" "claude.3.5" "v1" "chat" "claude.3.5" "v1"
    (by decide) (by decide) (by decide) (by decide) (by decide) (by decide)).mp rfl

/-- Records of a list with duplicate-free ids are determined by their id. -/
theorem ids_inj (l : List Record) (h : (idsOf l).Nodup) (x y : Record)
    (hx : x ∈ l) (hy : y ∈ l) (he : x.id = y.id) : x = y := by
  have h' : (l.map (fun r => r.id)).Nodup := h
  exact List.inj_on_of_nodup_map h' hx hy he

/-- Membership in the id list of a record list. -/
theorem mem_ids (l : List Record) (i : String) : i ∈ idsOf l ↔ ∃ r ∈ l, r.id = i := by
  simp [idsOf]

/-- Membership in the create component of a diff. -/
theorem mem_diff_create (A B : List Record) (r : Record) :
    r ∈ (collection_diff A B).1 ↔ r ∈ A ∧ ∀ b ∈ B, b.id ≠ r.id := by
  rw [diff_fst, List.mem_filter]
  simp [List.any_eq_true]

/-- Membership in the delete component of a diff. -/
theorem mem_diff_delete (A B : List Record) (r : Record) :
    r ∈ (collection_diff A B).2.2 ↔ r ∈ B ∧ ∀ a ∈ A, a.id ≠ r.id := by
  rw [diff_del, List.mem_filter]
  simp [List.any_eq_true]

/-- Every pair in the update component of a diff pairs an actual record with a
desired record of the same id and different content. -/
theorem mem_diff_update (A B : List Record) (p : Record × Record)
    (hp : p ∈ (collection_diff A B).2.1) :
    p.2 ∈ A ∧ p.1 ∈ B ∧ p.1.id = p.2.id ∧ p.1.fields ≠ p.2.fields := by
  rw [diff_upd, List.mem_filterMap] at hp
  obtain ⟨a, haA, hfa⟩ := hp
  cases hfind : B.find? (fun d => d.id == a.id) with
  | none =>
    rw [hfind] at hfa
    exact absurd hfa (by simp)
  | some d =>
    rw [hfind] at hfa
    dsimp only at hfa
    by_cases hf : (d.fields == a.fields) = true
    · rw [if_pos hf] at hfa
      exact absurd hfa (by simp)
    · rw [if_neg hf] at hfa
      obtain rfl : (d, a) = p := by injection hfa
      have hpred := List.find?_some hfind
      refine ⟨haA, List.mem_of_find?_eq_some hfind, by simpa using hpred,
        fun he => hf (beq_iff_eq.mpr he)⟩

/-- Same-id records with different content produce an update pair, provided
the actual set has duplicate-free ids. -/
theorem mem_diff_update_of (A B : List Record) (hB : (idsOf B).Nodup) (a b : Record)
    (haA : a ∈ A) (hbB : b ∈ B) (hid : b.id = a.id) (hne : b.fields ≠ a.fields) :
    (b, a) ∈ (collection_diff A B).2.1 := by
  rw [diff_upd, List.mem_filterMap]
  refine ⟨a, haA, ?_⟩
  have hsome : (B.find? (fun d => d.id == a.id)).isSome := by
    rw [List.find?_isSome]
    exact ⟨b, hbB, beq_iff_eq.mpr hid⟩
  obtain ⟨b', hb'⟩ := Option.isSome_iff_exists.mp hsome
  have hb'B := List.mem_of_find?_eq_some hb'
  have hpred := List.find?_some hb'
  have hb'id : b'.id = a.id := by simpa using hpred
  obtain rfl : b' = b := ids_inj B hB b' b hb'B hbB (by rw [hb'id, hid])
  have hfalse : (b'.fields == a.fields) = false := beq_eq_false_iff_ne.mpr hne
  rw [hb']
  dsimp only
  rw [if_neg (fun he => hne (beq_iff_eq.mp he))]

/-- An id is a create id exactly when it occurs only in the desired set. -/
theorem create_ids (A B : List Record) (i : String) :
    i ∈ idsOf (collection_diff A B).1 ↔ i ∈ idsOf A ∧ i ∉ idsOf B := by
  constructor
  · intro h
    obtain ⟨r, hr, rfl⟩ := (mem_ids _ _).mp h
    obtain ⟨hrA, hnone⟩ := (mem_diff_create A B r).mp hr
    refine ⟨(mem_ids _ _).mpr ⟨r, hrA, rfl⟩, fun hB' => ?_⟩
    obtain ⟨b, hbB, hb⟩ := (mem_ids _ _).mp hB'
    exact hnone b hbB hb
  · rintro ⟨hA', hB'⟩
    obtain ⟨r, hrA, rfl⟩ := (mem_ids _ _).mp hA'
    refine (mem_ids _ _).mpr ⟨r, (mem_diff_create A B r).mpr ⟨hrA, ?_⟩, rfl⟩
    intro b hbB hb
    exact hB' ((mem_ids _ _).mpr ⟨b, hbB, hb⟩)

/-- An id is a delete id exactly when it occurs only in the actual set. -/
theorem delete_ids (A B : List Record) (i : String) :
    i ∈ idsOf (collection_diff A B).2.2 ↔ i ∈ idsOf B ∧ i ∉ idsOf A := by
  constructor
  · intro h
    obtain ⟨r, hr, rfl⟩ := (mem_ids _ _).mp h
    obtain ⟨hrB, hnone⟩ := (mem_diff_delete A B r).mp hr
    refine ⟨(mem_ids _ _).mpr ⟨r, hrB, rfl⟩, fun hA' => ?_⟩
    obtain ⟨a, haA, ha⟩ := (mem_ids _ _).mp hA'
    exact hnone a haA ha
  · rintro ⟨hB', hA'⟩
    obtain ⟨r, hrB, rfl⟩ := (mem_ids _ _).mp hB'
    refine (mem_ids _ _).mpr ⟨r, (mem_diff_delete A B r).mpr ⟨hrB, ?_⟩, rfl⟩
    intro a haA ha
    exact hA' ((mem_ids _ _).mpr ⟨a, haA, ha⟩)

/-- An id is an update id exactly when both sets hold it with different
content, provided the actual set has duplicate-free ids. -/
theorem update_ids (A B : List Record) (hB : (idsOf B).Nodup) (i : String) :
    i ∈ (collection_diff A B).2.1.map (fun p => p.2.id) ↔
      ∃ a ∈ A, ∃ b ∈ B, a.id = i ∧ b.id = i ∧ a.fields ≠ b.fields := by
  constructor
  · intro h
    obtain ⟨p, hp, hpi⟩ := List.mem_map.mp h
    obtain ⟨h1, h2, h3, h4⟩ := mem_diff_update A B p hp
    exact ⟨p.2, h1, p.1, h2, hpi, by rw [h3]; exact hpi, fun he => h4 he.symm⟩
  · rintro ⟨a, haA, b, hbB, hai, hbi, hne⟩
    have hmem := mem_diff_update_of A B hB a b haA hbB (by rw [hbi, hai])
      (fun he => hne he.symm)
    exact List.mem_map.mpr ⟨(b, a), hmem, hai⟩

/-- C8: for record sets with duplicate-free ids, every id occurring in the
desired or the actual set is classified into exactly one of to_create,
to_update, to_delete, or unchanged, and computing the diff twice on the same
inputs gives identical results. -/
theorem diff_complete_and_deterministic (A B : List Record)
    (hA : (idsOf A).Nodup) (hB : (idsOf B).Nodup) (i : String)
    (hi : i ∈ idsOf A ∨ i ∈ idsOf B) :
    diffClass A B i ∧ collection_diff A B = collection_diff A B := by
  refine ⟨?_, rfl⟩
  unfold diffClass
  by_cases hiA : i ∈ idsOf A
  · by_cases hiB : i ∈ idsOf B
    · obtain ⟨a, haA, hai⟩ := (mem_ids A i).mp hiA
      obtain ⟨b, hbB, hbi⟩ := (mem_ids B i).mp hiB
      have hCf : i ∉ idsOf (collection_diff A B).1 := by
        rw [create_ids]
        rintro ⟨-, h⟩
        exact h hiB
      have hDf : i ∉ idsOf (collection_diff A B).2.2 := by
        rw [delete_ids]
        rintro ⟨-, h⟩
        exact h hiA
      by_cases hfld : a.fields = b.fields
      · have hN : ∃ a' ∈ A, ∃ b' ∈ B, a'.id = i ∧ b'.id = i ∧ a'.fields = b'.fields :=
          ⟨a, haA, b, hbB, hai, hbi, hfld⟩
        have hUf : i ∉ (collection_diff A B).2.1.map (fun p => p.2.id) := by
          rw [update_ids A B hB]
          rintro ⟨a', ha'A, b', hb'B, ha'i, hb'i, hne⟩
          obtain rfl : a' = a := ids_inj A hA a' a ha'A haA (by rw [ha'i, hai])
          obtain rfl : b' = b := ids_inj B hB b' b hb'B hbB (by rw [hb'i, hbi])
          exact hne hfld
        exact ⟨Or.inr (Or.inr (Or.inr hN)), fun hC => absurd hC hCf,
          fun hU => absurd hU hUf, fun hD => absurd hD hDf⟩
      · have hU : i ∈ (collection_diff A B).2.1.map (fun p => p.2.id) :=
          (update_ids A B hB i).mpr ⟨a, haA, b, hbB, hai, hbi, hfld⟩
        have hNf : ¬∃ a' ∈ A, ∃ b' ∈ B, a'.id = i ∧ b'.id = i ∧ a'.fields = b'.fields := by
          rintro ⟨a', ha'A, b', hb'B, ha'i, hb'i, hfe⟩
          obtain rfl : a' = a := ids_inj A hA a' a ha'A haA (by rw [ha'i, hai])
          obtain rfl : b' = b := ids_inj B hB b' b hb'B hbB (by rw [hb'i, hbi])
          exact hfld hfe
        exact ⟨Or.inr (Or.inl hU), fun hC => absurd hC hCf,
          fun _ => ⟨hDf, hNf⟩, fun hD => absurd hD hDf⟩
    · have hC : i ∈ idsOf (collection_diff A B).1 := (create_ids A B i).mpr ⟨hiA, hiB⟩
      have hUf : i ∉ (collection_diff A B).2.1.map (fun p => p.2.id) := by
        rw [update_ids A B hB]
        rintro ⟨a', -, b', hb'B, -, hb'i, -⟩
        exact hiB ((mem_ids B i).mpr ⟨b', hb'B, hb'i⟩)
      have hDf : i ∉ idsOf (collection_diff A B).2.2 := by
        rw [delete_ids]
        rintro ⟨h, -⟩
        exact hiB h
      have hNf : ¬∃ a' ∈ A, ∃ b' ∈ B, a'.id = i ∧ b'.id = i ∧ a'.fields = b'.fields := by
        rintro ⟨a', -, b', hb'B, -, hb'i, -⟩
        exact hiB ((mem_ids B i).mpr ⟨b', hb'B, hb'i⟩)
      exact ⟨Or.inl hC, fun _ => ⟨hUf, hDf, hNf⟩, fun hU => absurd hU hUf,
        fun hD => absurd hD hDf⟩
  · by_cases hiB : i ∈ idsOf B
    · have hD : i ∈ idsOf (collection_diff A B).2.2 := (delete_ids A B i).mpr ⟨hiB, hiA⟩
      have hCf : i ∉ idsOf (collection_diff A B).1 := by
        rw [create_ids]
        rintro ⟨h, -⟩
        exact hiA h
      have hUf : i ∉ (collection_diff A B).2.1.map (fun p => p.2.id) := by
        rw [update_ids A B hB]
        rintro ⟨a', ha'A, -, -, ha'i, -⟩
        exact hiA ((mem_ids A i).mpr ⟨a', ha'A, ha'i⟩)
      have hNf : ¬∃ a' ∈ A, ∃ b' ∈ B, a'.id = i ∧ b'.id = i ∧ a'.fields = b'.fields := by
        rintro ⟨a', ha'A, -, -, ha'i, -⟩
        exact hiA ((mem_ids A i).mpr ⟨a', ha'A, ha'i⟩)
      exact ⟨Or.inr (Or.inr (Or.inl hD)), fun hC => absurd hC hCf,
        fun hU => absurd hU hUf, fun _ => hNf⟩
    · rcases hi with h | h
      · exact absurd h hiA
      · exact absurd h hiB

/-- C8 witness: one concrete id classified by a concrete diff. -/
theorem diff_complete_and_deterministic_witness :
    diffClass [Record.mk "a" [("k", "v")] none] [] "a" ∧
      collection_diff [Record.mk "a" [("k", "v")] none] [] =
        collection_diff [Record.mk "a" [("k", "v")] none] [] :=
  diff_complete_and_deterministic [Record.mk "a" [("k", "v")] none] []
    (by decide) (by decide) "a" (Or.inl (by decide))

/-- Every record in the store after a fully applied batch agrees in id and
content with some desired record. -/
theorem apply_batch_to_src (src dest : List Record)
    (hB : (idsOf dest).Nodup) (r : Record)
    (hr : r ∈ apply_batch dest (collection_diff src dest).1
      (collection_diff src dest).2.1 (collection_diff src dest).2.2) :
    ∃ s ∈ src, s.id = r.id ∧ s.fields = r.fields := by
  simp only [apply_batch] at hr
  rw [List.mem_append] at hr
  rcases hr with hr | hr
  · obtain ⟨d0, hd0kept, hd0map⟩ := List.mem_map.mp hr
    rw [List.mem_filter] at hd0kept
    obtain ⟨hd0dest, hd0keep⟩ := hd0kept
    cases hfind : (collection_diff src dest).2.1.find? (fun p => p.1.id == d0.id) with
    | some p =>
      rw [hfind] at hd0map
      dsimp only at hd0map
      have hp := mem_diff_update src dest p (List.mem_of_find?_eq_some hfind)
      exact ⟨p.2, hp.1, by rw [← hd0map]; rfl, by rw [← hd0map]; rfl⟩
    | none =>
      rw [hfind] at hd0map
      dsimp only at hd0map
      obtain rfl : d0 = r := hd0map
      by_cases hin : ∃ s ∈ src, s.id = d0.id
      · obtain ⟨s, hsrc, hsid⟩ := hin
        refine ⟨s, hsrc, hsid, ?_⟩
        by_cases hf : s.fields = d0.fields
        · exact hf
        · exfalso
          have hmem := mem_diff_update_of src dest hB s d0 hsrc hd0dest hsid.symm
            (fun he => hf he.symm)
          have hsome : ((collection_diff src dest).2.1.find?
              (fun p => p.1.id == d0.id)).isSome :=
            List.find?_isSome.mpr ⟨(d0, s), hmem, by simp⟩
          rw [hfind] at hsome
          simp at hsome
      · exfalso
        have hd0del : d0 ∈ (collection_diff src dest).2.2 :=
          (mem_diff_delete src dest d0).mpr
            ⟨hd0dest, fun a haA ha => hin ⟨a, haA, ha⟩⟩
        have hany : (collection_diff src dest).2.2.any (fun x => x.id == d0.id) = true :=
          List.any_eq_true.mpr ⟨d0, hd0del, by simp⟩
        rw [hany] at hd0keep
        exact absurd hd0keep (by simp)
  · have hc := (mem_diff_create src dest r).mp hr
    exact ⟨r, hc.1, rfl, rfl⟩

/-- Every desired record has a record of the same id in the store after a
fully applied batch. -/
theorem src_to_apply_batch (src dest : List Record) (s : Record) (hs : s ∈ src) :
    ∃ r ∈ apply_batch dest (collection_diff src dest).1
      (collection_diff src dest).2.1 (collection_diff src dest).2.2, r.id = s.id := by
  simp only [apply_batch]
  by_cases hin : ∃ d ∈ dest, d.id = s.id
  · obtain ⟨d0, hd0dest, hd0id⟩ := hin
    have hd0kept : d0 ∈ dest.filter
        (fun d => !((collection_diff src dest).2.2.any (fun x => x.id == d.id))) := by
      rw [List.mem_filter]
      refine ⟨hd0dest, ?_⟩
      have hfalse : (collection_diff src dest).2.2.any (fun x => x.id == d0.id) = false := by
        rw [List.any_eq_false]
        intro x hxdl hxe
        obtain ⟨-, hnone⟩ := (mem_diff_delete src dest x).mp hxdl
        have hxid : x.id = d0.id := beq_iff_eq.mp hxe
        exact hnone s hs (by rw [hxid, hd0id])
      rw [hfalse]
      rfl
    cases hfind : (collection_diff src dest).2.1.find? (fun p => p.1.id == d0.id) with
    | some p =>
      refine ⟨stripLM p.2, ?_, ?_⟩
      · refine List.mem_append.mpr (Or.inl (List.mem_map.mpr ⟨d0, hd0kept, ?_⟩))
        rw [hfind]
      · have hp := mem_diff_update src dest p (List.mem_of_find?_eq_some hfind)
        have hpr : p.1.id = d0.id := by simpa using List.find?_some hfind
        show p.2.id = s.id
        rw [← hp.2.2.1, hpr, hd0id]
    | none =>
      refine ⟨d0, ?_, hd0id⟩
      refine List.mem_append.mpr (Or.inl (List.mem_map.mpr ⟨d0, hd0kept, ?_⟩))
      rw [hfind]
  · have hs_create : s ∈ (collection_diff src dest).1 :=
      (mem_diff_create src dest s).mpr ⟨hs, fun b hb he => hin ⟨b, hb, he⟩⟩
    exact ⟨s, List.mem_append.mpr (Or.inr hs_create), rfl⟩

/-- Applying the computed batch to the actual records leaves nothing for a
second diff against the same desired records. -/
theorem diff_after_apply (src dest : List Record)
    (hA : (idsOf src).Nodup) (hB : (idsOf dest).Nodup) :
    collection_diff src
      (apply_batch dest (collection_diff src dest).1 (collection_diff src dest).2.1
        (collection_diff src dest).2.2) = ([], [], []) := by
  have h1 : (collection_diff src
      (apply_batch dest (collection_diff src dest).1 (collection_diff src dest).2.1
        (collection_diff src dest).2.2)).1 = [] := by
    rw [diff_fst, List.filter_eq_nil_iff]
    intro s hs
    obtain ⟨r, hrS, hrid⟩ := src_to_apply_batch src dest s hs
    intro h'
    rw [Bool.not_eq_true'] at h'
    rw [List.any_eq_false] at h'
    exact h' r hrS (beq_iff_eq.mpr hrid)
  have h2 : (collection_diff src
      (apply_batch dest (collection_diff src dest).1 (collection_diff src dest).2.1
        (collection_diff src dest).2.2)).2.1 = [] := by
    rw [diff_upd, List.filterMap_eq_nil_iff]
    intro s hs
    cases hfind : (apply_batch dest (collection_diff src dest).1
        (collection_diff src dest).2.1 (collection_diff src dest).2.2).find?
        (fun d => d.id == s.id) with
    | none => rfl
    | some d =>
      dsimp only
      have hdS := List.mem_of_find?_eq_some hfind
      have hdid : d.id = s.id := by simpa using List.find?_some hfind
      obtain ⟨s', hs', hs'id, hs'f⟩ := apply_batch_to_src src dest hB d hdS
      obtain rfl : s' = s := ids_inj src hA s' s hs' hs (by rw [hs'id, hdid])
      rw [if_pos (beq_iff_eq.mpr hs'f.symm)]
  have h3 : (collection_diff src
      (apply_batch dest (collection_diff src dest).1 (collection_diff src dest).2.1
        (collection_diff src dest).2.2)).2.2 = [] := by
    rw [diff_del, List.filter_eq_nil_iff]
    intro r hrS
    obtain ⟨s, hssrc, hsid, -⟩ := apply_batch_to_src src dest hB r hrS
    intro h'
    rw [Bool.not_eq_true'] at h'
    rw [List.any_eq_false] at h'
    exact h' s hssrc (beq_iff_eq.mpr hsid)
  have hsplit : collection_diff src
      (apply_batch dest (collection_diff src dest).1 (collection_diff src dest).2.1
        (collection_diff src dest).2.2) =
      ((collection_diff src
        (apply_batch dest (collection_diff src dest).1 (collection_diff src dest).2.1
          (collection_diff src dest).2.2)).1,
       (collection_diff src
        (apply_batch dest (collection_diff src dest).1 (collection_diff src dest).2.1
          (collection_diff src dest).2.2)).2.1,
       (collection_diff src
        (apply_batch dest (collection_diff src dest).1 (collection_diff src dest).2.1
          (collection_diff src dest).2.2)).2.2) := rfl
  rw [hsplit, h1, h2, h3]

/-- C9: for desired and actual record sets with duplicate-free ids, after one
successful sync whose batch was applied to the store, a second sync with the
same desired records against the resulting store state computes an empty diff
and returns 0 without applying any batch. -/
theorem sync_round_trip (env : String) (src dest : List Record)
    (hA : (idsOf src).Nodup) (hB : (idsOf dest).Nodup) (client2 : Client)
    (hget2 : client2.get_records = Except.ok
      (apply_batch dest (collection_diff src dest).1 (collection_diff src dest).2.1
        (collection_diff src dest).2.2)) :
    collection_diff src
      (apply_batch dest (collection_diff src dest).1 (collection_diff src dest).2.1
        (collection_diff src dest).2.2) = ([], [], []) ∧
    sync_collection env client2 src = (0, noCalls) := by
  have h := diff_after_apply src dest hA hB
  exact ⟨h, sync_of_empty env client2 src _ hget2 h⟩

/-- C9 witness: one create applied to an empty store, then re-synced. -/
theorem sync_round_trip_witness :
    collection_diff [Record.mk "a" [("k", "v")] none]
      (apply_batch [] (collection_diff [Record.mk "a" [("k", "v")] none] []).1
        (collection_diff [Record.mk "a" [("k", "v")] none] []).2.1
        (collection_diff [Record.mk "a" [("k", "v")] none] []).2.2) = ([], [], []) ∧
    sync_collection "prod"
      ⟨Except.ok (apply_batch [] (collection_diff [Record.mk "a" [("k", "v")] none] []).1
        (collection_diff [Record.mk "a" [("k", "v")] none] []).2.1
        (collection_diff [Record.mk "a" [("k", "v")] none] []).2.2), true, true, true⟩
      [Record.mk "a" [("k", "v")] none] = (0, noCalls) :=
  sync_round_trip "prod" [Record.mk "a" [("k", "v")] none] [] (by decide) (by decide)
    ⟨Except.ok (apply_batch [] (collection_diff [Record.mk "a" [("k", "v")] none] []).1
      (collection_diff [Record.mk "a" [("k", "v")] none] []).2.1
      (collection_diff [Record.mk "a" [("k", "v")] none] []).2.2), true, true, true⟩ rfl

end PromptsUpdater
